import Mathlib

/-!
Verification of the persistence and technical-indicator layer of the
omni-finance repository (`src/regi/omnidb.py`, class `OmniDB`), against its
natural-language specification.

Shallow embedding conventions:
* SQLite tables are lists of typed rows; a `DBState` bundles the four tables
  the claims touch (`cryptocurrency`, `crypto_market_data`, `crypto_metadata`,
  `crypto_signals`).
* SQLite dynamic typing: ids and timestamps are `String` (the Python callers
  pass `crypto_id: str`); numeric value columns are `ℚ` (the source uses
  float64; we model with exact rationals).
* Timestamps are `"YYYY-MM-DD HH:MM:SS"` strings; SQLite compares TEXT values
  byte-lexicographically, and `pd.to_datetime` followed by `sort_values`
  agrees with lexicographic order on this fixed-width format, so ordering is
  modelled by a lexicographic comparison on the character list.
* `executemany` executes its parameter rows left to right inside one
  transaction: modelled as a left fold.
* Python exceptions are modelled by outcome values (`AttemptOutcome`,
  `ExitKind`) where a claim is about control flow, and by totality of the
  embedded functions elsewhere.
-/

/-! ### Connection manager: `OmniDB.sqlite_connect` (omnidb.py lines 57-124)

The context manager runs a `while retry_count <= max_retries` loop; each
iteration opens a connection, enables foreign keys, runs the unit of work
(`yield`), and commits.  The whole attempt body is abstracted as one
`AttemptOutcome` per attempt index: `success` (work ran and commit returned),
`lockFailure` (an `sqlite3.OperationalError` whose text contains
"database is locked"), `otherFailure` (any other exception).  `time.sleep` and
`random.random()` are abstracted as the recorded `sleeps` list and the `jitter`
oracle `j : Nat → ℚ` (the value of `random.random()` before the k-th retry,
with `0 ≤ j k < 1`). -/

inductive AttemptOutcome
  | success
  | lockFailure
  | otherFailure
deriving DecidableEq

/-- How control leaves the `sqlite_connect` context manager.
`raisedLock` models the surfaced lock error (the spec's `LockTimeoutError`):
in the source the original "database is locked" `OperationalError` is
re-raised by the bare `raise` in the else-branch once `retry_count` has
reached `max_retries`; the dedicated
`OperationalError("Database still locked after ...")` after the loop (lines
122-124) is unreachable, and is modelled by `raisedRetryMessage`. -/
inductive ExitKind
  | committed
  | raisedLock
  | raisedOther
  | raisedRetryMessage
deriving DecidableEq

/-- Observable trace of one run of the `sqlite_connect` loop.
`attempts` counts connections opened; `sleeps` the backoff delays slept, in
order; `rolledBack` whether `conn.rollback()` ran on the attempt that ended
the run; `finalClosed` whether the connection of the attempt that ended the
run was explicitly closed (`conn.close()`) before control returned.
(Connections of attempts abandoned to a lock retry are always closed by the
"Clean up before retry" block, lines 92-96; `finalClosed` tracks the last
attempt, where only the `finally` block at lines 112-119 can close.) -/
structure ConnTrace where
  exit : ExitKind
  attempts : Nat
  sleeps : List ℚ
  rolledBack : Bool
  finalClosed : Bool

/-- Line 88: `delay = retry_delay * (2 ** (retry_count - 1)) * (0.5 + random.random())`,
evaluated after `retry_count += 1`, so `retry_count` here is the 1-based index
of the retry about to happen and `u` is the `random.random()` draw. -/
def backoffDelay (retry_delay : ℚ) (retry_count : Nat) (u : ℚ) : ℚ :=
  retry_delay * 2 ^ (retry_count - 1) * (1/2 + u)

/-- The retry loop of `sqlite_connect`, lines 72-119.  `rc` is `retry_count`.
The loop condition `retry_count <= max_retries` holds exactly when the fuel
(maintained as `max_retries + 1 - rc`) is positive, so the fuel-0 case is the
fall-through after the loop (lines 121-124, unreachable from the entry point).
Per attempt:
* `success`: `conn.commit(); return`; the `finally` block closes the handle
  only under `retry_count == max_retries` (line 115).
* `lockFailure` with `rc < max_retries`: increment, compute the backoff delay,
  close cursor/rollback/close conn, sleep, loop.
* `lockFailure` with `rc = max_retries`: else-branch — rollback and re-raise
  the lock error; here `finally` does close (rc = max_retries).
* `otherFailure`: rollback and re-raise; `finally` closes only if
  `rc = max_retries`. -/
def connectLoop (max_retries : Nat) (retry_delay : ℚ)
    (outcome : Nat → AttemptOutcome) (jitter : Nat → ℚ) :
    Nat → Nat → ConnTrace
  | _rc, 0 =>
      { exit := .raisedRetryMessage, attempts := 0, sleeps := [],
        rolledBack := false, finalClosed := false }
  | rc, fuel + 1 =>
      match outcome rc with
      | .success =>
          { exit := .committed, attempts := 1, sleeps := [],
            rolledBack := false, finalClosed := rc == max_retries }
      | .lockFailure =>
          if rc < max_retries then
            let d := backoffDelay retry_delay (rc + 1) (jitter (rc + 1))
            let t := connectLoop max_retries retry_delay outcome jitter (rc + 1) fuel
            { exit := t.exit, attempts := t.attempts + 1, sleeps := d :: t.sleeps,
              rolledBack := t.rolledBack, finalClosed := t.finalClosed }
          else
            { exit := .raisedLock, attempts := 1, sleeps := [],
              rolledBack := true, finalClosed := true }
      | .otherFailure =>
          { exit := .raisedOther, attempts := 1, sleeps := [],
            rolledBack := true, finalClosed := rc == max_retries }

/-- One run of the `sqlite_connect` context manager with parameters
`max_retries` and `retry_delay` (defaults in the source: 5 and 1.0),
starting at `retry_count = 0`. -/
def sqlite_connect (max_retries : Nat) (retry_delay : ℚ)
    (outcome : Nat → AttemptOutcome) (jitter : Nat → ℚ) : ConnTrace :=
  connectLoop max_retries retry_delay outcome jitter 0 (max_retries + 1)

/-! ### Data model: the four tables the claims touch -/

/-- Value columns of `crypto_market_data` (all columns except the primary key
`(crypto_id, timestamp)`); tuple order as in `insert_market_data`. -/
structure MDVals where
  price_usd : ℚ
  market_cap_usd : ℚ
  volume_24h_usd : ℚ
  percent_change_1h : ℚ
  percent_change_24h : ℚ
  percent_change_7d : ℚ
  circulating_supply : ℚ
  total_supply : ℚ
  max_supply : ℚ

/-- A row of `crypto_market_data`: primary key `(crypto_id, timestamp)` plus
the value columns. -/
structure MarketRow where
  crypto_id : String
  timestamp : String
  vals : MDVals

/-- A row of `cryptocurrency` (tuple order as in `insert_cryptos`).
The id is externally assigned; SQLite stores it with dynamic typing and the
delete/update paths compare it against string parameters, so it is a `String`
here. -/
structure CryptoRow where
  id : String
  symbol : String
  name : String
  slug : String
  first_historical_data : String
  last_historical_data : String
  status : String
deriving DecidableEq

/-- A row of `crypto_metadata` (tuple order as in `insert_metadata`);
primary key `crypto_id`. -/
structure MetaRow where
  crypto_id : String
  logo_url : String
  website_url : String
  technical_doc : String
  description : String
  category : String
deriving DecidableEq

/-- A row of the indicator DataFrame and of the `crypto_signals` table
(`create_signals_table`, lines 146-167): key `(crypto_id, timestamp)` plus
the derived columns.  `std_7d_sq` carries the *square* of the source's
`std_7d` column (the rolling sample variance; pandas `.std()` is its square
root, which leaves ℚ); no claim inspects this column's value. -/
structure IndicatorRow where
  crypto_id : String
  timestamp : String
  daily_return : Option ℚ
  ma_7d : Option ℚ
  std_7d_sq : Option ℚ
  RSI : Option ℚ
  signal : String

/-- The store: the four tables relevant to the claims.  The news tables are
out of scope for every claim. -/
structure DBState where
  cryptocurrency : List CryptoRow
  marketData : List MarketRow
  metadata : List MetaRow
  signals : List IndicatorRow

def emptyDB : DBState :=
  { cryptocurrency := [], marketData := [], metadata := [], signals := [] }

/-- Byte-lexicographic comparison on character lists (SQLite TEXT ordering for
the ASCII timestamps used here). -/
def charListLe : List Char → List Char → Bool
  | [], _ => true
  | _ :: _, [] => false
  | a :: as, b :: bs => if a < b then true else if b < a then false else charListLe as bs

def strLeB (a b : String) : Bool := charListLe a.data b.data

def strLtB (a b : String) : Bool := !(strLeB b a)

/-! ### Upsert store: CREATE methods (omnidb.py lines 173-245) -/

/-- One parameter row of `insert_cryptos`: `INSERT OR IGNORE INTO
cryptocurrency` — if a row with the same primary key `id` exists, the new
tuple is ignored; otherwise it is appended. -/
def insertCryptoRow (tbl : List CryptoRow) (r : CryptoRow) : List CryptoRow :=
  if tbl.any (fun c => c.id == r.id) then tbl else tbl ++ [r]

/-- Method `insert_cryptos(cryptos)` (lines 173-189): `executemany` of
`INSERT OR IGNORE` rows. -/
def insert_cryptos (s : DBState) (cryptos : List CryptoRow) : DBState :=
  { s with cryptocurrency := cryptos.foldl insertCryptoRow s.cryptocurrency }

/-- One parameter row of `insert_market_data`: `INSERT ... ON CONFLICT
(crypto_id, timestamp) DO UPDATE SET` every value column from `excluded` —
on conflict the existing row keeps its position and key and all nine value
columns are overwritten; otherwise the row is appended. -/
def upsertMarketRow (tbl : List MarketRow) (r : MarketRow) : List MarketRow :=
  if tbl.any (fun x => x.crypto_id == r.crypto_id && x.timestamp == r.timestamp) then
    tbl.map (fun x =>
      if x.crypto_id == r.crypto_id && x.timestamp == r.timestamp then
        { x with vals := r.vals }
      else x)
  else tbl ++ [r]

/-- Method `insert_market_data(market_data)` (lines 191-223). -/
def insert_market_data (s : DBState) (market_data : List MarketRow) : DBState :=
  { s with marketData := market_data.foldl upsertMarketRow s.marketData }

/-- One parameter row of `insert_metadata`: `INSERT ... ON CONFLICT(crypto_id)
DO UPDATE SET category = excluded.category` — on conflict only the category
column is overwritten. -/
def upsertMetaRow (tbl : List MetaRow) (r : MetaRow) : List MetaRow :=
  if tbl.any (fun x => x.crypto_id == r.crypto_id) then
    tbl.map (fun x =>
      if x.crypto_id == r.crypto_id then { x with category := r.category } else x)
  else tbl ++ [r]

/-- Method `insert_metadata(metadata)` (lines 225-245). -/
def insert_metadata (s : DBState) (metadata : List MetaRow) : DBState :=
  { s with metadata := metadata.foldl upsertMetaRow s.metadata }

/-! ### READ / UPDATE / DELETE methods (omnidb.py lines 268-383) -/

/-- Python truthiness of the optional date parameters: `None` and the empty
string are falsy (`if start_date and end_date:`). -/
def truthyOpt : Option String → Bool
  | none => false
  | some str => !(str == "")

/-- Method `get_market_data(crypto_id, start_date, end_date)` (lines 268-292):
`SELECT * FROM crypto_market_data WHERE crypto_id = ?`, with
`AND timestamp BETWEEN ? AND ?` appended only when `start_date and end_date`
is truthy.  An empty result set is the empty list (the source's empty
DataFrame). -/
def get_market_data (s : DBState) (crypto_id : String)
    (start_date end_date : Option String) : List MarketRow :=
  let base := s.marketData.filter (fun x => x.crypto_id == crypto_id)
  if truthyOpt start_date && truthyOpt end_date then
    base.filter (fun x =>
      strLeB (start_date.getD "") x.timestamp && strLeB x.timestamp (end_date.getD ""))
  else base

/-- Method `update_crypto_status(crypto_id, new_status)` (lines 322-333). -/
def update_crypto_status (s : DBState) (crypto_id new_status : String) : DBState :=
  { s with cryptocurrency :=
      s.cryptocurrency.map (fun c => if c.id == crypto_id then { c with status := new_status } else c) }

/-- Method `update_market_data(crypto_id, timestamp, new_price)` (lines 335-351). -/
def update_market_data (s : DBState) (crypto_id timestamp : String) (new_price : ℚ) : DBState :=
  { s with marketData :=
      s.marketData.map (fun x =>
        if x.crypto_id == crypto_id && x.timestamp == timestamp then
          { x with vals := { x.vals with price_usd := new_price } }
        else x) }

/-- Method `delete_crypto(crypto_id)` (lines 357-371): deletes the market data and
the `cryptocurrency` row; metadata is preserved, and `crypto_signals` is not
touched at all. -/
def delete_crypto (s : DBState) (crypto_id : String) : DBState :=
  { s with
      marketData := s.marketData.filter (fun x => !(x.crypto_id == crypto_id)),
      cryptocurrency := s.cryptocurrency.filter (fun c => !(c.id == crypto_id)) }

/-- Method `delete_old_market_data(cutoff_date)` (lines 373-383):
`DELETE FROM crypto_market_data WHERE timestamp < ?`; `crypto_signals` is not
touched. -/
def delete_old_market_data (s : DBState) (cutoff_date : String) : DBState :=
  { s with marketData := s.marketData.filter (fun x => !(strLtB x.timestamp cutoff_date)) }

/-! ### Indicator engine: `calculate_technical_indicators` (omnidb.py lines 390-438)

The engine reads the market data, sorts by timestamp, and derives columns on
the DataFrame.  Each derived column is embedded as a `List (Option ℚ)` over
the (ascending-by-timestamp) price series, `none` standing for pandas `NaN`.
Division in ℚ is total with `x / 0 = 0`; the source's float divisions by zero
(`pct_change` over a zero price) produce inf/NaN, but no claim touches that
case and the RSI denominator is guarded by the `1e-9` epsilon in both. -/

/-- Insertion of a row into a timestamp-sorted list (helper for the
`sort_values(by='timestamp')` step). -/
def insertByTs (r : MarketRow) : List MarketRow → List MarketRow
  | [] => [r]
  | x :: xs => if strLeB r.timestamp x.timestamp then r :: x :: xs else x :: insertByTs r xs

/-- Step `df['timestamp'] = pd.to_datetime(...); df.sort_values(by='timestamp')`:
(lines 408-410): ascending sort by timestamp.  On the store's fixed-width
UTC format, datetime order is lexicographic string order. -/
def sortByTs : List MarketRow → List MarketRow
  | [] => []
  | x :: xs => insertByTs x (sortByTs xs)

/-- Column `df['price_usd'].pct_change() * 100` (line 415): `none` at row 0, then
the relative change of consecutive prices, as a percentage. -/
def dailyReturns (ps : List ℚ) : List (Option ℚ) :=
  match ps with
  | [] => []
  | _ :: t => none :: List.zipWith (fun prev cur => some ((cur - prev) / prev * 100)) ps t

/-- Column `df['price_usd'].diff()` (line 425): `none` at row 0, then consecutive
differences. -/
def diffs (ps : List ℚ) : List (Option ℚ) :=
  match ps with
  | [] => []
  | _ :: t => none :: List.zipWith (fun prev cur => some (cur - prev)) ps t

/-- Column `delta.where(delta > 0, 0)` (line 426): keep positive deltas, replace
everything else — including the leading NaN, for which the condition is
False — by 0. -/
def gainVals (ps : List ℚ) : List ℚ :=
  (diffs ps).map (fun d =>
    match d with
    | some x => if 0 < x then x else 0
    | none => 0)

/-- Column `(-delta.where(delta < 0, 0))` (line 427): magnitude of negative deltas,
0 elsewhere (again including the leading NaN). -/
def lossVals (ps : List ℚ) : List ℚ :=
  (diffs ps).map (fun d =>
    match d with
    | some x => if x < 0 then -x else 0
    | none => 0)

/-- The mean over the trailing window of width `w` ending at index `i`:
the mean of `xs[i-w+1..i]` (exactly `w` cells when `w ≤ i + 1`). -/
def winMean (w : Nat) (xs : List ℚ) (i : Nat) : ℚ :=
  ((xs.take (i + 1)).drop (i + 1 - w)).sum / (w : ℚ)

/-- Column `series.rolling(window=w).mean()` over a NaN-free series: `none` until a
full trailing window of `w` values is available, then the mean of the last
`w` values. -/
def rollingMean (w : Nat) (xs : List ℚ) : List (Option ℚ) :=
  (List.range xs.length).map (fun i =>
    if w ≤ i + 1 then some (winMean w xs i) else none)

/-- The square of `series.rolling(window=w).std()` over a NaN-free series:
the rolling sample variance (pandas default `ddof=1`).  The source's `std_7d`
column is the square root of this; carrying the square keeps the value in ℚ,
and no claim inspects it. -/
def rollingStdSq (w : Nat) (xs : List ℚ) : List (Option ℚ) :=
  (List.range xs.length).map (fun i =>
    if w ≤ i + 1 then
      some ((((xs.take (i + 1)).drop (i + 1 - w)).map
        (fun x => (x - ((xs.take (i + 1)).drop (i + 1 - w)).sum / (w : ℚ)) ^ 2)).sum / ((w : ℚ) - 1))
    else none)

/-- The epsilon of line 428 (`1e-9`). -/
def rsiEps : ℚ := 1 / 1000000000

/-- The RSI formula of line 428 applied to one (gain, loss) pair:
`100 - (100 / (1 + (gain / (loss + 1e-9))))`. -/
def rsiOf (gain loss : ℚ) : ℚ :=
  100 - 100 / (1 + gain / (loss + rsiEps))

/-- Column `df['RSI']` (lines 424-428): 14-window rolling means of gains and losses
combined by `rsiOf`; NaN (`none`) where either rolling mean is not yet
defined. -/
def rsiList (ps : List ℚ) : List (Option ℚ) :=
  List.zipWith (fun g l =>
      match g, l with
      | some g, some l => some (rsiOf g l)
      | _, _ => none)
    (rollingMean 14 (gainVals ps)) (rollingMean 14 (lossVals ps))

/-- Classification `np.select([RSI > 70, RSI < 30], ['Bearish Signal', 'Bullish Signal'],
default='Neutral/No signal')` (lines 431-436) applied to one RSI cell; for
NaN both comparisons are False, giving the default. -/
def signalOf : Option ℚ → String
  | some r => if 70 < r then "Bearish Signal" else if r < 30 then "Bullish Signal" else "Neutral/No signal"
  | none => "Neutral/No signal"

/-- Column `df['signal']` (line 436). -/
def signalList (ps : List ℚ) : List String :=
  (rsiList ps).map signalOf

/-- The derived DataFrame: the sorted observation rows with the indicator
columns attached; row `i` pairs the `i`-th sorted observation's key with the
`i`-th entry of each derived column. -/
def indicatorRows (sorted : List MarketRow) : List IndicatorRow :=
  let ps := sorted.map (fun r => r.vals.price_usd)
  let ids := sorted.map (fun r => r.crypto_id)
  let tss := sorted.map (fun r => r.timestamp)
  let dr := dailyReturns ps
  let ma := rollingMean 7 ps
  let sv := rollingStdSq 7 ps
  let rs := rsiList ps
  let sg := signalList ps
  (List.range sorted.length).map (fun i =>
    { crypto_id := ids.getD i "", timestamp := tss.getD i "",
      daily_return := dr.getD i none, ma_7d := ma.getD i none,
      std_7d_sq := sv.getD i none, RSI := rs.getD i none,
      signal := sg.getD i "" })

/-- Method `calculate_technical_indicators(crypto_id, start_date, end_date)`
(lines 390-438): read the market data; if empty, return it unchanged
(line 403-405); otherwise sort by timestamp and attach the derived columns.
Total: it does not raise on any input. -/
def calculate_technical_indicators (s : DBState) (crypto_id : String)
    (start_date end_date : Option String) : List IndicatorRow :=
  let df := get_market_data s crypto_id start_date end_date
  if df.isEmpty then [] else indicatorRows (sortByTs df)

/-! ### Signal store and trend classifier (omnidb.py lines 440-512) -/

/-- One row of the `INSERT OR REPLACE INTO crypto_signals` statement
(lines 471-482): REPLACE deletes any row with the same primary key
`(crypto_id, timestamp)` and inserts the new row. -/
def upsertSignalRow (tbl : List IndicatorRow) (r : IndicatorRow) : List IndicatorRow :=
  tbl.filter (fun x => !(x.crypto_id == r.crypto_id && x.timestamp == r.timestamp)) ++ [r]

/-- Method `save_indicators_to_db(indicators_df)` (lines 440-486): an empty series is
a logged no-op (lines 448-450); otherwise ensure the table exists (idempotent
DDL, no state change here), stringify timestamps (identity in this model) and
`executemany` the insert-or-replace rows. -/
def save_indicators_to_db (s : DBState) (indicators_df : List IndicatorRow) : DBState :=
  if indicators_df.isEmpty then s
  else { s with signals := indicators_df.foldl upsertSignalRow s.signals }

def dummyIndicatorRow : IndicatorRow :=
  { crypto_id := "", timestamp := "", daily_return := none, ma_7d := none,
    std_7d_sq := none, RSI := none, signal := "" }

/-- Method `analyze_crypto_bull_bear(crypto_id, start_date, end_date)`
(lines 488-512): compute the indicator frame; on empty return the "no data"
verdict without writing; otherwise persist the frame, then map the last row's
signal label to the verdict string.  Returns the post-call state together
with the verdict.  Total: it does not raise on any input. -/
def analyze_crypto_bull_bear (s : DBState) (crypto_id : String)
    (start_date end_date : Option String) : DBState × String :=
  let df := calculate_technical_indicators s crypto_id start_date end_date
  if df.isEmpty then (s, "No data available to determine a trend.")
  else
    let s_saved := save_indicators_to_db s df
    let latest_row := df.getLastD dummyIndicatorRow
    if latest_row.signal == "Bullish Signal" then
      (s_saved, "Bullish outlook for " ++ crypto_id ++ " based on RSI signal.")
    else if latest_row.signal == "Bearish Signal" then
      (s_saved, "Bearish outlook for " ++ crypto_id ++ " based on RSI signal.")
    else
      (s_saved, "Neutral signals for " ++ crypto_id ++ " at the moment.")

/-! ### Lemmas about the connection manager run -/

/-- The trace fields contributed by the attempt that ends a run: committing
(`success`), re-raising a non-transient error (`otherFailure`), or re-raising
the lock error once `retry_count` is at `max_retries` (`lockFailure`; only
possible at the retry bound).  `atMax` is `retry_count == max_retries` at that
attempt, which is what the `finally` block's close is gated on. -/
def terminalTrace (out : AttemptOutcome) (atMax : Bool) : ConnTrace :=
  match out with
  | .success => { exit := .committed, attempts := 1, sleeps := [], rolledBack := false, finalClosed := atMax }
  | .otherFailure => { exit := .raisedOther, attempts := 1, sleeps := [], rolledBack := true, finalClosed := atMax }
  | .lockFailure => { exit := .raisedLock, attempts := 1, sleeps := [], rolledBack := true, finalClosed := true }

/-- Closed form of a `connectLoop` run that sees `n` lock failures starting at
`retry_count = rc` and then ends (by success, by a non-transient failure, or
by a lock failure at the retry bound). -/
theorem connectLoop_run (mr : Nat) (rd : ℚ) (o : Nat → AttemptOutcome) (j : Nat → ℚ) :
    ∀ (n rc : Nat), rc + n ≤ mr →
      (∀ k, k < n → o (rc + k) = .lockFailure) →
      (o (rc + n) ≠ .lockFailure ∨ rc + n = mr) →
      connectLoop mr rd o j rc (mr + 1 - rc) =
        { exit := (terminalTrace (o (rc + n)) (rc + n == mr)).exit,
          attempts := n + 1,
          sleeps := (List.range n).map (fun i => backoffDelay rd (rc + i + 1) (j (rc + i + 1))),
          rolledBack := (terminalTrace (o (rc + n)) (rc + n == mr)).rolledBack,
          finalClosed := (terminalTrace (o (rc + n)) (rc + n == mr)).finalClosed } := by
  intro n
  induction n with
  | zero =>
      intro rc hle _hpre hterm
      have hfuel : mr + 1 - rc = (mr - rc) + 1 := by omega
      rw [hfuel]
      simp only [Nat.add_zero] at hterm ⊢
      rcases hout : o rc with _ | _ | _
      · simp [connectLoop, hout, terminalTrace]
      · have hmax : rc = mr := by
          rcases hterm with h | h
          · exact absurd hout h
          · exact h
        subst hmax
        simp [connectLoop, hout, terminalTrace]
      · simp [connectLoop, hout, terminalTrace]
  | succ n ih =>
      intro rc hle hpre hterm
      have h0 : o rc = .lockFailure := by simpa using hpre 0 (Nat.succ_pos n)
      have hlt : rc < mr := by omega
      have hfuel : mr + 1 - rc = (mr - rc) + 1 := by omega
      have hfuel2 : mr - rc = mr + 1 - (rc + 1) := by omega
      rw [hfuel]
      have harg : rc + 1 + n = rc + (n + 1) := by omega
      have hrec := ih (rc + 1) (by omega)
        (fun k hk => by
          have := hpre (k + 1) (by omega)
          simpa [Nat.add_assoc, Nat.add_comm 1 k] using this)
        (by rw [harg]; exact hterm)
      rw [harg] at hrec
      simp only [connectLoop, h0, if_pos hlt]
      rw [hfuel2, hrec]
      congr 1
      rw [List.range_succ_eq_map, List.map_cons, List.map_map]
      congr 1
      show List.map (fun i => backoffDelay rd (rc + 1 + i + 1) (j (rc + 1 + i + 1))) (List.range n)
        = List.map ((fun i => backoffDelay rd (rc + i + 1) (j (rc + i + 1))) ∘ Nat.succ) (List.range n)
      refine List.map_congr_left (fun a _ => ?_)
      simp only [Function.comp_apply, Nat.succ_eq_add_one]
      have e : rc + 1 + a + 1 = rc + (a + 1) + 1 := by omega
      rw [e]

/-- Definitional form: `sqlite_connect mr rd o j = connectLoop mr rd o j 0 (mr + 1 - 0)`. -/
theorem sqlite_connect_eq_run (mr : Nat) (rd : ℚ) (o : Nat → AttemptOutcome) (j : Nat → ℚ) :
    sqlite_connect mr rd o j = connectLoop mr rd o j 0 (mr + 1 - 0) := rfl

/-- C1: For every unit of work executed under the connection manager, a
transient "database is locked" error is retried automatically (with a backoff
sleep per retry) up to the bounded retry count `max_retries` (default 5):
(1) if every attempt up to and including the one at the retry bound fails
with a lock error, the run makes `max_retries + 1` attempts and surfaces the
lock error to the caller (the spec's `LockTimeoutError`; the source re-raises
the original "database is locked" `OperationalError`);
(2) a non-transient failure at any attempt triggers a rollback and is
re-raised immediately — the run ends at that attempt with no further retry;
(3) if an attempt succeeds before the budget is exhausted, the run commits,
having slept exactly once per preceding lock failure. -/
theorem sqlite_connect_retry_and_error_policy
    (mr : Nat) (rd : ℚ) (o : Nat → AttemptOutcome) (j : Nat → ℚ) :
    ((∀ k, k ≤ mr → o k = .lockFailure) →
        (sqlite_connect mr rd o j).exit = .raisedLock ∧
        (sqlite_connect mr rd o j).attempts = mr + 1 ∧
        (sqlite_connect mr rd o j).rolledBack = true)
    ∧ (∀ n, n ≤ mr → (∀ k, k < n → o k = .lockFailure) → o n = .otherFailure →
        (sqlite_connect mr rd o j).exit = .raisedOther ∧
        (sqlite_connect mr rd o j).rolledBack = true ∧
        (sqlite_connect mr rd o j).attempts = n + 1)
    ∧ (∀ n, n ≤ mr → (∀ k, k < n → o k = .lockFailure) → o n = .success →
        (sqlite_connect mr rd o j).exit = .committed ∧
        (sqlite_connect mr rd o j).attempts = n + 1 ∧
        (sqlite_connect mr rd o j).sleeps.length = n) := by
  refine ⟨?_, ?_, ?_⟩
  · intro hall
    have h := connectLoop_run mr rd o j mr 0 (by omega)
      (fun k hk => by simpa using hall k (by omega))
      (Or.inr (by omega))
    rw [sqlite_connect_eq_run, h]
    have hmr : o mr = .lockFailure := hall mr (le_refl mr)
    simp [hmr, terminalTrace]
  · intro n hn hpre hterm
    have h := connectLoop_run mr rd o j n 0 (by omega)
      (fun k hk => by simpa using hpre k hk)
      (Or.inl (by simp only [Nat.zero_add]; rw [hterm]; simp))
    rw [sqlite_connect_eq_run, h]
    simp [hterm, terminalTrace]
  · intro n hn hpre hterm
    have h := connectLoop_run mr rd o j n 0 (by omega)
      (fun k hk => by simpa using hpre k hk)
      (Or.inl (by simp only [Nat.zero_add]; rw [hterm]; simp))
    rw [sqlite_connect_eq_run, h]
    simp [hterm, terminalTrace]

def oLock : Nat → AttemptOutcome := fun _ => .lockFailure

def oMix : Nat → AttemptOutcome := fun k => if k < 2 then .lockFailure else .otherFailure

def oOkAfter : Nat → AttemptOutcome := fun k => if k < 3 then .lockFailure else .success

def jHalf : Nat → ℚ := fun _ => 1/2

/-- Witness for C1 at `max_retries = 5`: six straight lock failures raise the
lock error after 6 attempts; two lock failures followed by a non-transient
failure raise it immediately after 3 attempts with rollback; three lock
failures followed by success commit after 4 attempts and 3 sleeps. -/
theorem sqlite_connect_retry_and_error_policy_witness :
    ((∀ k, k ≤ 5 → oLock k = .lockFailure) ∧
      (sqlite_connect 5 1 oLock jHalf).exit = .raisedLock ∧
      (sqlite_connect 5 1 oLock jHalf).attempts = 6 ∧
      (sqlite_connect 5 1 oLock jHalf).rolledBack = true)
    ∧ ((2 ≤ 5 ∧ (∀ k, k < 2 → oMix k = .lockFailure) ∧ oMix 2 = .otherFailure) ∧
      (sqlite_connect 5 1 oMix jHalf).exit = .raisedOther ∧
      (sqlite_connect 5 1 oMix jHalf).rolledBack = true ∧
      (sqlite_connect 5 1 oMix jHalf).attempts = 3)
    ∧ ((3 ≤ 5 ∧ (∀ k, k < 3 → oOkAfter k = .lockFailure) ∧ oOkAfter 3 = .success) ∧
      (sqlite_connect 5 1 oOkAfter jHalf).exit = .committed ∧
      (sqlite_connect 5 1 oOkAfter jHalf).attempts = 4 ∧
      (sqlite_connect 5 1 oOkAfter jHalf).sleeps.length = 3) :=
  ⟨⟨fun _ _ => rfl, (sqlite_connect_retry_and_error_policy 5 1 oLock jHalf).1 (fun _ _ => rfl)⟩,
   ⟨⟨by omega, by decide, by decide⟩,
     (sqlite_connect_retry_and_error_policy 5 1 oMix jHalf).2.1 2 (by omega) (by decide) (by decide)⟩,
   ⟨⟨by omega, by decide, by decide⟩,
     (sqlite_connect_retry_and_error_policy 5 1 oOkAfter jHalf).2.2 3 (by omega) (by decide) (by decide)⟩⟩

/-- C4 (code bug in the source): the claim "the database handle is released
(closed) on every exit path" is what `sqlite_connect2` does and what the
`finally` comment intends, but `sqlite_connect`'s `finally` block closes the
cursor/connection only under `retry_count == max_retries` (line 115).  So a
run whose very first attempt succeeds commits and returns with the connection
never closed (`finalClosed = false`), and likewise a non-transient failure
before the retry bound re-raises without closing; only runs that consumed the
whole retry budget close their final handle. -/
theorem sqlite_connect_success_leaves_handle_open :
    (sqlite_connect 5 1 (fun _ => .success) (fun _ => 0)).exit = .committed ∧
    (sqlite_connect 5 1 (fun _ => .success) (fun _ => 0)).finalClosed = false ∧
    (sqlite_connect 5 1 oMix jHalf).exit = .raisedOther ∧
    (sqlite_connect 5 1 oMix jHalf).finalClosed = false ∧
    (sqlite_connect 5 1 oLock jHalf).exit = .raisedLock ∧
    (sqlite_connect 5 1 oLock jHalf).finalClosed = true := by
  refine ⟨rfl, rfl, ?_, ?_, ?_, ?_⟩ <;> decide

def oOnce : Nat → AttemptOutcome := fun k => if k = 0 then .lockFailure else .success

def jNine : Nat → ℚ := fun _ => 9/10

/-- C9 counterexample: the claim says the backoff factor is uniform in
[0.5, 1.0], but line 88 computes `0.5 + random.random()`, which ranges over
[0.5, 1.5).  With `random.random() = 0.9` (a possible draw) the first retry
of a run with base delay 1 sleeps 1.4 = 1 * 2^0 * 1.4, and no factor in
[0.5, 1.0] produces that delay. -/
theorem backoff_jitter_counterexample :
    (sqlite_connect 5 1 oOnce jNine).sleeps = [7/5] ∧
    ¬ ∃ c : ℚ, 1/2 ≤ c ∧ c ≤ 1 ∧ (7/5 : ℚ) = 1 * 2 ^ 0 * c := by
  constructor
  · have h : (sqlite_connect 5 1 oOnce jNine).sleeps = [backoffDelay 1 1 (9/10)] := rfl
    rw [h, backoffDelay]
    norm_num
  · rintro ⟨c, h1, h2, h3⟩
    rw [pow_zero, one_mul, one_mul] at h3
    rw [← h3] at h2
    norm_num at h2

/-- C9 (amended): before the k-th retry (k = 1, 2, ...) the run sleeps
`retry_delay * 2^(k-1) * (0.5 + u)` where `u` is the `random.random()` draw;
with `u` ranging over [0, 1) the jitter factor ranges over [0.5, 1.5), not
[0.5, 1.0].  Stated over any run that retries `n` times and then succeeds:
the i-th sleep (0-based) is `retry_delay * 2^i * c` for some factor
`c ∈ [0.5, 1.5)`. -/
theorem sqlite_connect_backoff_formula
    (mr : Nat) (rd : ℚ) (o : Nat → AttemptOutcome) (j : Nat → ℚ) (n : Nat)
    (hn : n ≤ mr) (hpre : ∀ k, k < n → o k = .lockFailure) (hterm : o n = .success)
    (hj : ∀ k, 0 ≤ j k ∧ j k < 1) :
    (sqlite_connect mr rd o j).sleeps.length = n ∧
    ∀ i, i < n → ∃ c : ℚ, 1/2 ≤ c ∧ c < 3/2 ∧
      (sqlite_connect mr rd o j).sleeps.getD i 0 = rd * 2 ^ i * c := by
  have h := connectLoop_run mr rd o j n 0 (by omega)
    (fun k hk => by simpa using hpre k hk)
    (Or.inl (by simp only [Nat.zero_add]; rw [hterm]; simp))
  rw [sqlite_connect_eq_run, h]
  constructor
  · simp
  · intro i hi
    refine ⟨1/2 + j (i + 1), by linarith [(hj (i + 1)).1], by linarith [(hj (i + 1)).2], ?_⟩
    have hlen : (List.map (fun i => backoffDelay rd (0 + i + 1) (j (0 + i + 1))) (List.range n)).length = n := by
      simp
    rw [List.getD_eq_getElem _ _ (by rw [hlen]; exact hi)]
    simp only [List.getElem_map, List.getElem_range, Nat.zero_add]
    rw [backoffDelay]
    norm_num

/-- Witness for the amended C9 at a concrete run: three lock failures with
jitter draw 1/2 each, then success. -/
theorem sqlite_connect_backoff_formula_witness :
    ((3 ≤ 5 ∧ (∀ k, k < 3 → oOkAfter k = .lockFailure) ∧ oOkAfter 3 = .success ∧
       (∀ k, 0 ≤ jHalf k ∧ jHalf k < 1)) ∧
     (sqlite_connect 5 1 oOkAfter jHalf).sleeps.length = 3 ∧
     (∀ i, i < 3 → ∃ c : ℚ, 1/2 ≤ c ∧ c < 3/2 ∧
       (sqlite_connect 5 1 oOkAfter jHalf).sleeps.getD i 0 = 1 * 2 ^ i * c)) :=
  ⟨⟨by omega, by decide, by decide, fun _ => ⟨by norm_num [jHalf], by norm_num [jHalf]⟩⟩,
    sqlite_connect_backoff_formula 5 1 oOkAfter jHalf 3 (by omega) (by decide) (by decide)
      (fun _ => ⟨by norm_num [jHalf], by norm_num [jHalf]⟩)⟩

/-- C10: in `get_market_data` the date filter is appended only under
`if start_date and end_date:`; when exactly one bound is provided and the
other is `None`, the conjunction is falsy, the bound is silently ignored, and
the result is identical to the unbounded call. -/
theorem get_market_data_single_bound_ignored
    (s : DBState) (crypto_id : String) (b : String) :
    get_market_data s crypto_id (some b) none = get_market_data s crypto_id none none ∧
    get_market_data s crypto_id none (some b) = get_market_data s crypto_id none none := by
  constructor <;> simp [get_market_data, truthyOpt, Bool.and_false, Bool.false_and]

/-! ### Lemmas about the upsert store -/

/-- An `INSERT OR IGNORE` never changes the row found for a key that is already
present. -/
theorem insertCryptoRow_find?_of_isSome (tbl : List CryptoRow) (r : CryptoRow)
    (p : CryptoRow → Bool) (h : (tbl.find? p).isSome) :
    (insertCryptoRow tbl r).find? p = tbl.find? p := by
  unfold insertCryptoRow
  split
  · rfl
  · rw [List.find?_append]
    obtain ⟨x, hx⟩ := Option.isSome_iff_exists.mp h
    rw [hx]
    rfl

theorem foldl_insertCryptoRow_find? (rows : List CryptoRow) :
    ∀ (tbl : List CryptoRow) (p : CryptoRow → Bool), (tbl.find? p).isSome →
      (rows.foldl insertCryptoRow tbl).find? p = tbl.find? p := by
  induction rows with
  | nil => intro tbl p _; rfl
  | cons r rs ih =>
      intro tbl p h
      have hstep := insertCryptoRow_find?_of_isSome tbl r p h
      rw [List.foldl_cons, ih (insertCryptoRow tbl r) p (by rw [hstep]; exact h), hstep]

def exOldCrypto : CryptoRow :=
  { id := "1", symbol := "OLD", name := "Old Coin", slug := "old-coin",
    first_historical_data := "2024-01-01 00:00:00",
    last_historical_data := "2024-01-01 00:00:00", status := "active" }

def exNewCrypto : CryptoRow :=
  { id := "1", symbol := "NEW", name := "New Coin", slug := "new-coin",
    first_historical_data := "2024-02-01 00:00:00",
    last_historical_data := "2024-02-01 00:00:00", status := "active" }

/-- C6: `insert_cryptos` is `INSERT OR IGNORE` on the primary key: for every
batch, an instrument id already present keeps its row entirely unchanged (the
lookup result is identical before and after); in particular writing
(id=1, symbol="OLD") and then (id=1, symbol="NEW") leaves symbol "OLD". -/
theorem insert_cryptos_never_overwrites :
    (∀ (s : DBState) (rows : List CryptoRow) (cid : String),
        ((s.cryptocurrency.find? (fun c => c.id == cid)).isSome) →
        (insert_cryptos s rows).cryptocurrency.find? (fun c => c.id == cid)
          = s.cryptocurrency.find? (fun c => c.id == cid))
    ∧ (((insert_cryptos (insert_cryptos emptyDB [exOldCrypto]) [exNewCrypto]).cryptocurrency.find?
          (fun c => c.id == "1")).map (fun c => c.symbol) = some "OLD") := by
  constructor
  · intro s rows cid h
    exact foldl_insertCryptoRow_find? rows s.cryptocurrency _ h
  · decide

/-- Witness for C6's universal part: after inserting the OLD row, a second
batch carrying the NEW row for the same id leaves the lookup unchanged. -/
theorem insert_cryptos_never_overwrites_witness :
    (((insert_cryptos emptyDB [exOldCrypto]).cryptocurrency.find?
        (fun c => c.id == "1")).isSome)
    ∧ (insert_cryptos (insert_cryptos emptyDB [exOldCrypto]) [exNewCrypto]).cryptocurrency.find?
        (fun c => c.id == "1")
      = (insert_cryptos emptyDB [exOldCrypto]).cryptocurrency.find? (fun c => c.id == "1") :=
  ⟨by decide,
    insert_cryptos_never_overwrites.1 (insert_cryptos emptyDB [exOldCrypto]) [exNewCrypto] "1"
      (by decide)⟩

/-- Variant of `List.find?_cons_of_pos` with the predicate explicit, so that rewriting
does not have to guess it by higher-order unification. -/
theorem find?_cons_pos' {α : Type} (p : α → Bool) (a : α) (l : List α) (h : p a = true) :
    (a :: l).find? p = some a := List.find?_cons_of_pos l h

/-- Variant of `List.find?_cons_of_neg` with the predicate explicit. -/
theorem find?_cons_neg' {α : Type} (p : α → Bool) (a : α) (l : List α) (h : p a = false) :
    (a :: l).find? p = l.find? p := List.find?_cons_of_neg l (by simp [h])

/-- The conflict branch of `insert_metadata` rewrites only the category
column, so the first row found for a key keeps every other column. -/
theorem find?_map_metaUpdate (r : MetaRow) (cid : String) :
    ∀ (tbl : List MetaRow) (x0 : MetaRow),
      tbl.find? (fun x => x.crypto_id == cid) = some x0 →
      ∃ y, (tbl.map (fun x =>
              if x.crypto_id == r.crypto_id then { x with category := r.category } else x)).find?
            (fun x => x.crypto_id == cid) = some y ∧
        y.crypto_id = x0.crypto_id ∧ y.logo_url = x0.logo_url ∧
        y.website_url = x0.website_url ∧ y.technical_doc = x0.technical_doc ∧
        y.description = x0.description := by
  intro tbl
  induction tbl with
  | nil => intro x0 h; simp at h
  | cons a as ih =>
      intro x0 h
      by_cases ha : (a.crypto_id == cid) = true
      · rw [find?_cons_pos' (fun x : MetaRow => x.crypto_id == cid) a as ha] at h
        have hx0 : a = x0 := by injection h
        subst hx0
        have hpa : ((if a.crypto_id == r.crypto_id then { a with category := r.category }
            else a).crypto_id == cid) = true := by
          split <;> simpa using ha
        rw [List.map_cons, find?_cons_pos' (fun x : MetaRow => x.crypto_id == cid) _ _ hpa]
        refine ⟨_, rfl, ?_, ?_, ?_, ?_, ?_⟩ <;> split <;> rfl
      · have ha' : (a.crypto_id == cid) = false := by
          simpa using ha
        rw [find?_cons_neg' (fun x : MetaRow => x.crypto_id == cid) a as ha'] at h
        have hpa : ((if a.crypto_id == r.crypto_id then { a with category := r.category }
            else a).crypto_id == cid) = false := by
          split
          · simpa using ha
          · simpa using ha
        rw [List.map_cons, find?_cons_neg' (fun x : MetaRow => x.crypto_id == cid) _ _ hpa]
        exact ih x0 h

theorem upsertMetaRow_find?_frame (tbl : List MetaRow) (r : MetaRow) (cid : String) (x0 : MetaRow)
    (h : tbl.find? (fun x => x.crypto_id == cid) = some x0) :
    ∃ y, (upsertMetaRow tbl r).find? (fun x => x.crypto_id == cid) = some y ∧
      y.crypto_id = x0.crypto_id ∧ y.logo_url = x0.logo_url ∧
      y.website_url = x0.website_url ∧ y.technical_doc = x0.technical_doc ∧
      y.description = x0.description := by
  unfold upsertMetaRow
  split
  · exact find?_map_metaUpdate r cid tbl x0 h
  · rw [List.find?_append, h]
    exact ⟨x0, rfl, rfl, rfl, rfl, rfl, rfl⟩

/-- C7: for every batch and every instrument id whose metadata row already
exists, only the category column of the row found for that id can change;
logo URL, website URL, technical doc and description are unchanged (and the
key itself is unchanged). -/
theorem insert_metadata_updates_only_category
    (s : DBState) (rows : List MetaRow) (cid : String) (x0 : MetaRow)
    (h : s.metadata.find? (fun x => x.crypto_id == cid) = some x0) :
    ∃ y, (insert_metadata s rows).metadata.find? (fun x => x.crypto_id == cid) = some y ∧
      y.crypto_id = x0.crypto_id ∧ y.logo_url = x0.logo_url ∧
      y.website_url = x0.website_url ∧ y.technical_doc = x0.technical_doc ∧
      y.description = x0.description := by
  suffices hgen : ∀ (rws : List MetaRow) (tbl : List MetaRow) (x0 : MetaRow),
      tbl.find? (fun x => x.crypto_id == cid) = some x0 →
      ∃ y, (rws.foldl upsertMetaRow tbl).find? (fun x => x.crypto_id == cid) = some y ∧
        y.crypto_id = x0.crypto_id ∧ y.logo_url = x0.logo_url ∧
        y.website_url = x0.website_url ∧ y.technical_doc = x0.technical_doc ∧
        y.description = x0.description by
    exact hgen rows s.metadata x0 h
  intro rws
  induction rws with
  | nil => exact fun tbl y0 hy => ⟨y0, hy, rfl, rfl, rfl, rfl, rfl⟩
  | cons r rs ih =>
      intro tbl y0 hy
      obtain ⟨y1, hy1, e1, e2, e3, e4, e5⟩ := upsertMetaRow_find?_frame tbl r cid y0 hy
      obtain ⟨y2, hy2, f1, f2, f3, f4, f5⟩ := ih (upsertMetaRow tbl r) y1 hy1
      exact ⟨y2, hy2, f1.trans e1, f2.trans e2, f3.trans e3, f4.trans e4, f5.trans e5⟩

def exMetaOld : MetaRow :=
  { crypto_id := "1", logo_url := "http://logo.old", website_url := "http://site.old",
    technical_doc := "http://doc.old", description := "old description", category := "store-of-value" }

def exMetaNew : MetaRow :=
  { crypto_id := "1", logo_url := "http://logo.new", website_url := "http://site.new",
    technical_doc := "http://doc.new", description := "new description", category := "defi" }

/-- Witness for C7: upserting a second metadata row for id "1" can change the
category but leaves logo, website, doc and description of the stored row as
they were. -/
theorem insert_metadata_updates_only_category_witness :
    ((insert_metadata emptyDB [exMetaOld]).metadata.find?
        (fun x => x.crypto_id == "1") = some exMetaOld)
    ∧ ∃ y, (insert_metadata (insert_metadata emptyDB [exMetaOld]) [exMetaNew]).metadata.find?
          (fun x => x.crypto_id == "1") = some y ∧
        y.crypto_id = exMetaOld.crypto_id ∧ y.logo_url = exMetaOld.logo_url ∧
        y.website_url = exMetaOld.website_url ∧ y.technical_doc = exMetaOld.technical_doc ∧
        y.description = exMetaOld.description :=
  ⟨by decide,
    insert_metadata_updates_only_category (insert_metadata emptyDB [exMetaOld]) [exMetaNew]
      "1" exMetaOld (by decide)⟩

/-- When some row of the table carries the key of `r`, the conflict branch of
`insert_market_data` overwrites every value column of each such row in place,
and the first row found for that key afterwards carries exactly `r`'s
values. -/
theorem find?_map_mdOverwrite (r : MarketRow) :
    ∀ tbl : List MarketRow,
      tbl.any (fun x => x.crypto_id == r.crypto_id && x.timestamp == r.timestamp) = true →
      ∃ w, (tbl.map (fun x =>
              if x.crypto_id == r.crypto_id && x.timestamp == r.timestamp then
                { x with vals := r.vals } else x)).find?
            (fun x => x.crypto_id == r.crypto_id && x.timestamp == r.timestamp) = some w ∧
        w.crypto_id = r.crypto_id ∧ w.timestamp = r.timestamp ∧ w.vals = r.vals := by
  intro tbl
  induction tbl with
  | nil => intro h; simp at h
  | cons a as ih =>
      intro h
      by_cases ha : (a.crypto_id == r.crypto_id && a.timestamp == r.timestamp) = true
      · have hkey : a.crypto_id = r.crypto_id ∧ a.timestamp = r.timestamp := by
          simpa [Bool.and_eq_true, beq_iff_eq] using ha
        rw [List.map_cons, if_pos ha]
        rw [find?_cons_pos'
          (fun x : MarketRow => x.crypto_id == r.crypto_id && x.timestamp == r.timestamp)
          { a with vals := r.vals } _ ha]
        exact ⟨_, rfl, hkey.1, hkey.2, rfl⟩
      · have ha' : (a.crypto_id == r.crypto_id && a.timestamp == r.timestamp) = false := by
          simpa using ha
        rw [List.map_cons, if_neg (by simp [ha'])]
        rw [find?_cons_neg'
          (fun x : MarketRow => x.crypto_id == r.crypto_id && x.timestamp == r.timestamp) _ _ ha']
        apply ih
        simpa [List.any_cons, ha'] using h

/-- The conflict branch of `insert_market_data` leaves the lookup of every
other key unchanged. -/
theorem find?_map_mdOverwrite_other (r : MarketRow) (cid ts : String)
    (hne : ¬(r.crypto_id = cid ∧ r.timestamp = ts)) :
    ∀ tbl : List MarketRow,
      (tbl.map (fun x =>
          if x.crypto_id == r.crypto_id && x.timestamp == r.timestamp then
            { x with vals := r.vals } else x)).find?
          (fun x => x.crypto_id == cid && x.timestamp == ts)
        = tbl.find? (fun x => x.crypto_id == cid && x.timestamp == ts) := by
  intro tbl
  induction tbl with
  | nil => rfl
  | cons a as ih =>
      rw [List.map_cons]
      by_cases ha : (a.crypto_id == cid && a.timestamp == ts) = true
      · have haR : (a.crypto_id == r.crypto_id && a.timestamp == r.timestamp) = false := by
          have hak : a.crypto_id = cid ∧ a.timestamp = ts := by
            simpa [Bool.and_eq_true, beq_iff_eq] using ha
          by_contra hc
          have hc' : a.crypto_id = r.crypto_id ∧ a.timestamp = r.timestamp := by
            simpa [Bool.and_eq_true, beq_iff_eq] using hc
          exact hne ⟨hc'.1 ▸ hak.1, hc'.2 ▸ hak.2⟩
        rw [if_neg (by simp [haR])]
        rw [find?_cons_pos' (fun x : MarketRow => x.crypto_id == cid && x.timestamp == ts) _ _ ha,
          find?_cons_pos' (fun x : MarketRow => x.crypto_id == cid && x.timestamp == ts) _ _ ha]
      · have ha' : (a.crypto_id == cid && a.timestamp == ts) = false := by simpa using ha
        have hb : (((if a.crypto_id == r.crypto_id && a.timestamp == r.timestamp then
            { a with vals := r.vals } else a) : MarketRow).crypto_id == cid &&
            ((if a.crypto_id == r.crypto_id && a.timestamp == r.timestamp then
            { a with vals := r.vals } else a) : MarketRow).timestamp == ts) = false := by
          split <;> simpa using ha'
        rw [find?_cons_neg' (fun x : MarketRow => x.crypto_id == cid && x.timestamp == ts) _ _ hb,
          find?_cons_neg' (fun x : MarketRow => x.crypto_id == cid && x.timestamp == ts) _ _ ha', ih]

theorem upsertMarketRow_find?_other (tbl : List MarketRow) (r : MarketRow) (cid ts : String)
    (hne : ¬(r.crypto_id = cid ∧ r.timestamp = ts)) :
    (upsertMarketRow tbl r).find? (fun x => x.crypto_id == cid && x.timestamp == ts)
      = tbl.find? (fun x => x.crypto_id == cid && x.timestamp == ts) := by
  have hkmr : (r.crypto_id == cid && r.timestamp == ts) = false := by
    simp only [Bool.and_eq_true, beq_iff_eq, Bool.eq_false_iff, ne_eq]
    exact fun hc => hne (by simpa [Bool.and_eq_true, beq_iff_eq] using hc)
  unfold upsertMarketRow
  split
  · exact find?_map_mdOverwrite_other r cid ts hne tbl
  · rw [List.find?_append]
    have h1 : ([r].find? (fun x => x.crypto_id == cid && x.timestamp == ts)) = none := by
      rw [List.find?_eq_none]
      intro x hx
      rw [List.mem_singleton.mp hx]
      simp [hkmr]
    rw [h1, Option.or_none]

theorem foldl_upsertMarketRow_no_key (rows : List MarketRow) :
    ∀ (tbl : List MarketRow) (cid ts : String),
      (∀ x ∈ rows, ¬(x.crypto_id = cid ∧ x.timestamp = ts)) →
      (rows.foldl upsertMarketRow tbl).find? (fun x => x.crypto_id == cid && x.timestamp == ts)
        = tbl.find? (fun x => x.crypto_id == cid && x.timestamp == ts) := by
  induction rows with
  | nil => intro tbl cid ts _; rfl
  | cons r rs ih =>
      intro tbl cid ts hno
      rw [List.foldl_cons, ih _ cid ts (fun x hx => hno x (List.mem_cons_of_mem r hx)),
        upsertMarketRow_find?_other tbl r cid ts (hno r (List.mem_cons_self r rs))]

theorem upsertMarketRow_find?_self (tbl : List MarketRow) (r : MarketRow) :
    ∃ w, (upsertMarketRow tbl r).find?
        (fun x => x.crypto_id == r.crypto_id && x.timestamp == r.timestamp) = some w ∧
      w.crypto_id = r.crypto_id ∧ w.timestamp = r.timestamp ∧ w.vals = r.vals := by
  unfold upsertMarketRow
  split
  · next hany => exact find?_map_mdOverwrite r tbl hany
  · next hany =>
      rw [List.find?_append]
      have h1 : tbl.find? (fun x => x.crypto_id == r.crypto_id && x.timestamp == r.timestamp)
          = none := by
        rw [List.find?_eq_none]
        intro x hx hpx
        exact hany (List.any_eq_true.mpr ⟨x, hx, hpx⟩)
      rw [h1, Option.none_or]
      have h2 : ([r].find?
          (fun x => x.crypto_id == r.crypto_id && x.timestamp == r.timestamp)) = some r := by
        rw [find?_cons_pos'
          (fun x : MarketRow => x.crypto_id == r.crypto_id && x.timestamp == r.timestamp) _ _
          (by simp)]
      rw [h2]
      exact ⟨r, rfl, rfl, rfl, rfl⟩

/-- C3: last-write-wins.  For every starting state and batch, and every key
`(cid, ts)` written by the batch, reading the instrument back immediately
after `insert_market_data` and selecting the row with that timestamp yields a
row whose value columns all equal those of the last batch row that wrote the
key (`lw`, the first key match in the reversed batch). -/
theorem insert_market_data_last_write_wins
    (s : DBState) (rows : List MarketRow) (cid ts : String) (lw : MarketRow)
    (hlast : rows.reverse.find? (fun x => x.crypto_id == cid && x.timestamp == ts) = some lw) :
    ∃ w, (get_market_data (insert_market_data s rows) cid none none).find?
        (fun x => x.timestamp == ts) = some w ∧
      w.crypto_id = cid ∧ w.timestamp = ts ∧ w.vals = lw.vals := by
  have hread : ∀ tbl : List MarketRow,
      (tbl.filter (fun x => x.crypto_id == cid)).find? (fun x => x.timestamp == ts)
        = tbl.find? (fun x => x.crypto_id == cid && x.timestamp == ts) := by
    intro tbl
    induction tbl with
    | nil => rfl
    | cons a as ih =>
        rw [List.filter_cons]
        by_cases h1 : (a.crypto_id == cid) = true
        · rw [if_pos h1]
          by_cases h2 : (a.timestamp == ts) = true
          · rw [find?_cons_pos' (fun x : MarketRow => x.timestamp == ts) _ _ h2,
              find?_cons_pos' (fun x : MarketRow => x.crypto_id == cid && x.timestamp == ts) _ _
                (by simp [h1, h2])]
          · have h2' : (a.timestamp == ts) = false := by simpa using h2
            rw [find?_cons_neg' (fun x : MarketRow => x.timestamp == ts) _ _ h2',
              find?_cons_neg' (fun x : MarketRow => x.crypto_id == cid && x.timestamp == ts) _ _
                (by simp [h2']), ih]
        · have h1' : (a.crypto_id == cid) = false := by simpa using h1
          rw [if_neg (by simp [h1']),
            find?_cons_neg' (fun x : MarketRow => x.crypto_id == cid && x.timestamp == ts) _ _
              (by simp [h1']), ih]
  suffices hgen : ∀ (rws : List MarketRow) (tbl : List MarketRow),
      rws.reverse.find? (fun x => x.crypto_id == cid && x.timestamp == ts) = some lw →
      ∃ w, (rws.foldl upsertMarketRow tbl).find?
          (fun x => x.crypto_id == cid && x.timestamp == ts) = some w ∧
        w.crypto_id = cid ∧ w.timestamp = ts ∧ w.vals = lw.vals by
    obtain ⟨w, hw, e1, e2, e3⟩ := hgen rows s.marketData hlast
    refine ⟨w, ?_, e1, e2, e3⟩
    have hrfl : get_market_data (insert_market_data s rows) cid none none
        = (rows.foldl upsertMarketRow s.marketData).filter (fun x => x.crypto_id == cid) := rfl
    rw [hrfl, hread, hw]
  intro rws
  induction rws with
  | nil => intro tbl h; simp at h
  | cons r rs ih =>
      intro tbl h
      rw [List.reverse_cons, List.find?_append] at h
      cases hrs : rs.reverse.find? (fun x => x.crypto_id == cid && x.timestamp == ts) with
      | some lw' =>
          rw [hrs] at h
          have hlw : lw' = lw := by simpa using h
          subst hlw
          rw [List.foldl_cons]
          exact ih (upsertMarketRow tbl r) hrs
      | none =>
          rw [hrs, Option.none_or] at h
          have hPr : (r.crypto_id == cid && r.timestamp == ts) = true := by
            by_contra hc
            have hc' : (r.crypto_id == cid && r.timestamp == ts) = false := by simpa using hc
            rw [find?_cons_neg' (fun x : MarketRow => x.crypto_id == cid && x.timestamp == ts)
              _ _ hc'] at h
            simp at h
          have hrlw : r = lw := by
            rw [find?_cons_pos' (fun x : MarketRow => x.crypto_id == cid && x.timestamp == ts)
              _ _ hPr] at h
            injection h
          have hkey : r.crypto_id = cid ∧ r.timestamp = ts := by
            simpa [Bool.and_eq_true, beq_iff_eq] using hPr
          have hnors : ∀ x ∈ rs, ¬(x.crypto_id = cid ∧ x.timestamp = ts) := by
            intro x hx hcon
            have := List.find?_eq_none.mp hrs x (List.mem_reverse.mpr hx)
            exact this (by simp [hcon.1, hcon.2])
          rw [List.foldl_cons, foldl_upsertMarketRow_no_key rs _ cid ts hnors]
          obtain ⟨hc, ht⟩ := hkey
          subst hc ht
          obtain ⟨w, hw, e1, e2, e3⟩ := upsertMarketRow_find?_self tbl r
          exact ⟨w, hw, e1, e2, by rw [e3, hrlw]⟩

def mdvOnly (p : ℚ) : MDVals :=
  { price_usd := p, market_cap_usd := 0, volume_24h_usd := 0, percent_change_1h := 0,
    percent_change_24h := 0, percent_change_7d := 0, circulating_supply := 0,
    total_supply := 0, max_supply := 0 }

def lwwRow1 : MarketRow := { crypto_id := "BTC", timestamp := "2024-01-01 00:00:00", vals := mdvOnly 1 }

def lwwRow2 : MarketRow := { crypto_id := "BTC", timestamp := "2024-01-01 00:00:00", vals := mdvOnly 2 }

/-- Witness for C3: a batch writing the same key twice; the read returns the
values of the second (last) write. -/
theorem insert_market_data_last_write_wins_witness :
    ([lwwRow1, lwwRow2].reverse.find?
        (fun x => x.crypto_id == "BTC" && x.timestamp == "2024-01-01 00:00:00") = some lwwRow2)
    ∧ ∃ w, (get_market_data (insert_market_data emptyDB [lwwRow1, lwwRow2]) "BTC" none none).find?
          (fun x => x.timestamp == "2024-01-01 00:00:00") = some w ∧
        w.crypto_id = "BTC" ∧ w.timestamp = "2024-01-01 00:00:00" ∧ w.vals = lwwRow2.vals :=
  ⟨rfl,
    insert_market_data_last_write_wins emptyDB [lwwRow1, lwwRow2]
      "BTC" "2024-01-01 00:00:00" lwwRow2 rfl⟩

/-- C8: for an instrument id with zero matching observations, the read
returns the empty result, the indicator engine returns the empty frame
rather than raising (the source returns the empty DataFrame before touching
any column), the classify operation returns the explicit "no data" verdict
with the state unchanged (no write to the signal table), and persisting an
empty indicator series is the identity on the store (a logged no-op, not an
error). -/
theorem no_observations_no_data
    (s : DBState) (cid : String) (sd ed : Option String)
    (h : ∀ o ∈ s.marketData, (o.crypto_id == cid) = false) :
    get_market_data s cid sd ed = [] ∧
    calculate_technical_indicators s cid sd ed = [] ∧
    analyze_crypto_bull_bear s cid sd ed = (s, "No data available to determine a trend.") ∧
    save_indicators_to_db s [] = s := by
  have hbase : s.marketData.filter (fun x => x.crypto_id == cid) = [] :=
    List.filter_eq_nil_iff.mpr (fun a ha => by simp [h a ha])
  have h1 : get_market_data s cid sd ed = [] := by
    unfold get_market_data
    rw [hbase]
    simp
  have h2 : calculate_technical_indicators s cid sd ed = [] := by
    unfold calculate_technical_indicators
    rw [h1]
    rfl
  refine ⟨h1, h2, ?_, rfl⟩
  unfold analyze_crypto_bull_bear
  rw [h2]
  rfl

def ethOnlyRow : MarketRow :=
  { crypto_id := "ETH", timestamp := "2024-01-01 00:00:00", vals := mdvOnly 10 }

def ethOnlyState : DBState := insert_market_data emptyDB [ethOnlyRow]

/-- Witness for C8: a store holding only an "ETH" observation, queried for
"BTC". -/
theorem no_observations_no_data_witness :
    (∀ o ∈ ethOnlyState.marketData, (o.crypto_id == "BTC") = false)
    ∧ (get_market_data ethOnlyState "BTC" none none = [] ∧
       calculate_technical_indicators ethOnlyState "BTC" none none = [] ∧
       analyze_crypto_bull_bear ethOnlyState "BTC" none none
         = (ethOnlyState, "No data available to determine a trend.") ∧
       save_indicators_to_db ethOnlyState [] = ethOnlyState) :=
  ⟨by decide, no_observations_no_data ethOnlyState "BTC" none none (by decide)⟩

/-! ### Lemmas for the signal store and classifier -/

theorem mem_foldl_upsertSignalRow (df : List IndicatorRow) :
    ∀ (tbl : List IndicatorRow) (x : IndicatorRow),
      x ∈ df.foldl upsertSignalRow tbl → x ∈ tbl ∨ x ∈ df := by
  induction df with
  | nil => intro tbl x hx; exact Or.inl hx
  | cons r rs ih =>
      intro tbl x hx
      rw [List.foldl_cons] at hx
      rcases ih (upsertSignalRow tbl r) x hx with h | h
      · unfold upsertSignalRow at h
        rcases List.mem_append.mp h with h1 | h1
        · exact Or.inl (List.mem_of_mem_filter h1)
        · exact Or.inr (by rw [List.mem_singleton.mp h1]; exact List.mem_cons_self r rs)
      · exact Or.inr (List.mem_cons_of_mem r h)

theorem mem_insertByTs (r : MarketRow) :
    ∀ (l : List MarketRow) (x : MarketRow), x ∈ insertByTs r l ↔ x = r ∨ x ∈ l := by
  intro l
  induction l with
  | nil => intro x; simp [insertByTs]
  | cons a as ih =>
      intro x
      unfold insertByTs
      split
      · simp
      · rw [List.mem_cons, ih x, List.mem_cons]
        tauto

theorem mem_sortByTs : ∀ (l : List MarketRow) (x : MarketRow), x ∈ sortByTs l ↔ x ∈ l := by
  intro l
  induction l with
  | nil => intro x; simp [sortByTs]
  | cons a as ih =>
      intro x
      unfold sortByTs
      rw [mem_insertByTs, ih, List.mem_cons]

theorem get_market_data_subset (s : DBState) (cid : String) (sd ed : Option String) :
    ∀ x ∈ get_market_data s cid sd ed, x ∈ s.marketData := by
  intro x hx
  unfold get_market_data at hx
  split at hx
  · exact List.mem_of_mem_filter (List.mem_of_mem_filter hx)
  · exact List.mem_of_mem_filter hx

theorem indicatorRows_key_mem (sorted : List MarketRow) (row : IndicatorRow)
    (h : row ∈ indicatorRows sorted) :
    ∃ o ∈ sorted, row.crypto_id = o.crypto_id ∧ row.timestamp = o.timestamp := by
  unfold indicatorRows at h
  simp only [List.mem_map, List.mem_range] at h
  obtain ⟨i, hi, hrow⟩ := h
  refine ⟨sorted.get ⟨i, hi⟩, List.get_mem sorted i hi, ?_, ?_⟩
  · rw [← hrow]
    show (List.map (fun r => r.crypto_id) sorted).getD i "" = _
    rw [List.getD_eq_getElem _ _ (by simpa using hi)]
    simp
  · rw [← hrow]
    show (List.map (fun r => r.timestamp) sorted).getD i "" = _
    rw [List.getD_eq_getElem _ _ (by simpa using hi)]
    simp

/-- The store returned by the classifier equals the one produced by the
signal-store persist step: on the empty frame both are `s` (no write), and on
a non-empty frame every verdict branch returns the saved store. -/
theorem analyze_state_eq (s : DBState) (cid : String) (sd ed : Option String) :
    (analyze_crypto_bull_bear s cid sd ed).1
      = save_indicators_to_db s (calculate_technical_indicators s cid sd ed) := by
  unfold analyze_crypto_bull_bear save_indicators_to_db
  cases hdf : (calculate_technical_indicators s cid sd ed).isEmpty with
  | true => simp [hdf]
  | false =>
      simp only [hdf, Bool.false_eq_true, if_false]
      split
      · rfl
      · split <;> rfl

/-- C5 (amended, persistence-time form): every signal row present after a
`analyze_crypto_bull_bear` call either was already in the signal table or
carries the key `(crypto_id, timestamp)` of an observation row present in the
store at the time of the write — the classifier derives its rows from the
observation rows it read.  (The reachable-state form of the claim is false:
the delete operations do not cascade to `crypto_signals`; see the
counterexample.) -/
theorem analyze_persists_only_observed_keys
    (s : DBState) (cid : String) (sd ed : Option String) (r : IndicatorRow)
    (hr : r ∈ ((analyze_crypto_bull_bear s cid sd ed).1).signals) :
    r ∈ s.signals ∨
      ∃ o ∈ s.marketData, r.crypto_id = o.crypto_id ∧ r.timestamp = o.timestamp := by
  rw [analyze_state_eq] at hr
  unfold save_indicators_to_db at hr
  split at hr
  · exact Or.inl hr
  · rcases mem_foldl_upsertSignalRow _ _ _ hr with h | h
    · exact Or.inl h
    · right
      simp only [calculate_technical_indicators] at h
      split at h
      · simp at h
      · obtain ⟨o, ho, h1, h2⟩ := indicatorRows_key_mem _ r h
        exact ⟨o, get_market_data_subset s cid sd ed o ((mem_sortByTs _ o).mp ho), h1, h2⟩

def c5Crypto : CryptoRow :=
  { id := "1", symbol := "BTC", name := "Bitcoin", slug := "bitcoin",
    first_historical_data := "2024-01-01 00:00:00",
    last_historical_data := "2024-01-01 00:00:00", status := "active" }

def c5Row : MarketRow :=
  { crypto_id := "BTC", timestamp := "2024-01-01 00:00:00", vals := mdvOnly 100 }

def c5Base : DBState := insert_market_data (insert_cryptos emptyDB [c5Crypto]) [c5Row]

/-- The single signal row that classifying `c5Base` persists (one observation:
every rolling column is still `none`, the signal is the `np.select`
default). -/
def c5SignalRow : IndicatorRow :=
  { crypto_id := "BTC", timestamp := "2024-01-01 00:00:00", daily_return := none,
    ma_7d := none, std_7d_sq := none, RSI := none, signal := "Neutral/No signal" }

/-- Witness for the amended C5 at a concrete store: the one persisted signal
row is backed by the observation row that produced it. -/
theorem analyze_persists_only_observed_keys_witness :
    (c5SignalRow ∈ ((analyze_crypto_bull_bear c5Base "BTC" none none).1).signals)
    ∧ (c5SignalRow ∈ c5Base.signals ∨
        ∃ o ∈ c5Base.marketData,
          c5SignalRow.crypto_id = o.crypto_id ∧ c5SignalRow.timestamp = o.timestamp) := by
  have hmem : c5SignalRow ∈ ((analyze_crypto_bull_bear c5Base "BTC" none none).1).signals := by
    show c5SignalRow ∈ [c5SignalRow]
    exact List.mem_singleton.mpr rfl
  exact ⟨hmem, analyze_persists_only_observed_keys c5Base "BTC" none none c5SignalRow hmem⟩

def c5Final : DBState :=
  delete_old_market_data (analyze_crypto_bull_bear c5Base "BTC" none none).1
    "9999-01-01 00:00:00"

/-- C5 counterexample: a state reachable by the claim's own operation list —
`insert_cryptos`, `insert_market_data`, `analyze_crypto_bull_bear` (which
persists indicators), then `delete_old_market_data` — in which the
observation table is empty while a signal row for ("BTC",
"2024-01-01 00:00:00") remains: `delete_old_market_data` (and likewise
`delete_crypto`) deletes from `crypto_market_data` only and never touches
`crypto_signals`, so the claimed invariant fails on reachable states. -/
theorem signals_outlive_observations :
    c5Final.marketData.isEmpty = true ∧
    (c5Final.signals.any (fun r => !(c5Final.marketData.any
      (fun o => o.crypto_id == r.crypto_id && o.timestamp == r.timestamp)))) = true := by
  exact ⟨rfl, rfl⟩

/-! ### Lemmas about the indicator columns -/

theorem diffs_length (ps : List ℚ) : (diffs ps).length = ps.length := by
  cases ps with
  | nil => rfl
  | cons a t => simp [diffs]

theorem gainVals_length (ps : List ℚ) : (gainVals ps).length = ps.length := by
  simp [gainVals, diffs_length]

theorem lossVals_length (ps : List ℚ) : (lossVals ps).length = ps.length := by
  simp [lossVals, diffs_length]

/-- The RSI column as a single indexed map: defined from index 13 on (both
rolling means need a full 14-window; the gain/loss series are NaN-free
because `where` replaced the leading NaN by 0). -/
theorem rsiList_eq_map (ps : List ℚ) :
    rsiList ps = (List.range ps.length).map (fun i =>
      if 14 ≤ i + 1 then
        some (rsiOf (winMean 14 (gainVals ps) i) (winMean 14 (lossVals ps) i))
      else none) := by
  unfold rsiList rollingMean
  rw [gainVals_length, lossVals_length, List.zipWith_map, List.zipWith_same]
  refine List.map_congr_left (fun i _ => ?_)
  by_cases h : 14 ≤ i + 1 <;> simp [h]

theorem rsiList_length (ps : List ℚ) : (rsiList ps).length = ps.length := by
  rw [rsiList_eq_map]
  simp

theorem signalList_length (ps : List ℚ) : (signalList ps).length = ps.length := by
  unfold signalList
  rw [List.length_map, rsiList_length]

theorem getLast?_map_range {α : Type} (n : Nat) (f : Nat → α) (h : n ≠ 0) :
    ((List.range n).map f).getLast? = some (f (n - 1)) := by
  obtain ⟨m, rfl⟩ := Nat.exists_eq_succ_of_ne_zero h
  rw [List.range_succ, List.map_append, List.map_cons, List.map_nil, List.getLast?_concat]
  simp

theorem winMean_last (w : Nat) (xs : List ℚ) (h : 1 ≤ xs.length) :
    winMean w xs (xs.length - 1) = ((xs.drop (xs.length - w)).sum) / (w : ℚ) := by
  unfold winMean
  have h1 : xs.length - 1 + 1 = xs.length := by omega
  rw [h1, List.take_length]

theorem rsiList_getLast (ps : List ℚ) (h14 : 14 ≤ ps.length) :
    (rsiList ps).getLast? = some (some (rsiOf
      (((gainVals ps).drop (ps.length - 14)).sum / 14)
      (((lossVals ps).drop (ps.length - 14)).sum / 14))) := by
  rw [rsiList_eq_map, getLast?_map_range _ _ (by omega)]
  have hc : 14 ≤ (ps.length - 1) + 1 := by omega
  rw [if_pos hc]
  have hg := winMean_last 14 (gainVals ps) (by rw [gainVals_length]; omega)
  have hl := winMean_last 14 (lossVals ps) (by rw [lossVals_length]; omega)
  rw [gainVals_length] at hg
  rw [lossVals_length] at hl
  rw [hg, hl]
  norm_num

theorem signalList_getLast (ps : List ℚ) (h14 : 14 ≤ ps.length) :
    (signalList ps).getLast? = some (signalOf (some (rsiOf
      (((gainVals ps).drop (ps.length - 14)).sum / 14)
      (((lossVals ps).drop (ps.length - 14)).sum / 14)))) := by
  unfold signalList
  rw [List.getLast?_map, rsiList_getLast ps h14]
  rfl

/-- The RSI formula at zero rolling loss: the epsilon keeps the denominator
positive, and any mean gain above `(7/3) * 1e-9` pushes the RSI above 70. -/
theorem rsiOf_zero_loss_gt70 (S : ℚ) (hS : 98/3 * rsiEps < S) : 70 < rsiOf (S/14) 0 := by
  unfold rsiOf rsiEps
  unfold rsiEps at hS
  rw [zero_add]
  have hx : (7:ℚ)/3 < (S/14) / (1/1000000000) := by
    have he : (S/14) / ((1:ℚ)/1000000000) = S * 1000000000 / 14 := by
      field_simp
    rw [he]
    linarith
  have hpos : (0:ℚ) < 1 + (S/14)/(1/1000000000) := by linarith
  have hfrac : 100 / (1 + (S/14)/(1/1000000000)) < 30 := by
    rw [div_lt_iff₀ hpos]
    linarith
  linarith

/-- If the trailing 14-step window of the series shows no loss and a total
gain above `14 * (7/3) * 1e-9`, the engine's last row has RSI above 70 and
the bearish label. -/
theorem trailing_gains_bearish (ps : List ℚ) (h14 : 14 ≤ ps.length)
    (hloss : ∀ x ∈ (lossVals ps).drop (ps.length - 14), x = 0)
    (hgain : 98/3 * rsiEps < ((gainVals ps).drop (ps.length - 14)).sum) :
    ∃ r : ℚ, (rsiList ps).getLast? = some (some r) ∧ 70 < r ∧
      (signalList ps).getLast? = some "Bearish Signal" := by
  have hlz : ((lossVals ps).drop (ps.length - 14)).sum = 0 := List.sum_eq_zero hloss
  have h70 : 70 < rsiOf ((((gainVals ps).drop (ps.length - 14)).sum)/14) 0 :=
    rsiOf_zero_loss_gt70 _ hgain
  refine ⟨rsiOf ((((gainVals ps).drop (ps.length - 14)).sum)/14) 0, ?_, h70, ?_⟩
  · rw [rsiList_getLast ps h14, hlz, zero_div]
  · rw [signalList_getLast ps h14, hlz, zero_div]
    simp only [signalOf]
    rw [if_pos h70]

theorem getD_last_of_getLast? {α : Type} (l : List α) (d x : α) (h : l.getLast? = some x) :
    l.getD (l.length - 1) d = x := by
  rw [List.getD_eq_getElem?_getD, ← List.getLast?_eq_getElem?, h]
  rfl

/-- The last row of the indicator frame, field by field. -/
theorem indicatorRows_getLastD (sorted : List MarketRow) (h : sorted.length ≠ 0) :
    (indicatorRows sorted).getLastD dummyIndicatorRow
      = { crypto_id := (sorted.map (fun r => r.crypto_id)).getD (sorted.length - 1) "",
          timestamp := (sorted.map (fun r => r.timestamp)).getD (sorted.length - 1) "",
          daily_return := (dailyReturns (sorted.map (fun r => r.vals.price_usd))).getD
            (sorted.length - 1) none,
          ma_7d := (rollingMean 7 (sorted.map (fun r => r.vals.price_usd))).getD
            (sorted.length - 1) none,
          std_7d_sq := (rollingStdSq 7 (sorted.map (fun r => r.vals.price_usd))).getD
            (sorted.length - 1) none,
          RSI := (rsiList (sorted.map (fun r => r.vals.price_usd))).getD
            (sorted.length - 1) none,
          signal := (signalList (sorted.map (fun r => r.vals.price_usd))).getD
            (sorted.length - 1) "" } := by
  rw [List.getLastD_eq_getLast?]
  simp only [indicatorRows]
  rw [getLast?_map_range _ _ h]
  rfl

/-- The classifier's verdict when the last indicator row is bearish. -/
theorem analyze_verdict_bearish (s : DBState) (cid : String) (sd ed : Option String)
    (hne : (calculate_technical_indicators s cid sd ed).isEmpty = false)
    (hlast : ((calculate_technical_indicators s cid sd ed).getLastD dummyIndicatorRow).signal
      = "Bearish Signal") :
    (analyze_crypto_bull_bear s cid sd ed).2
      = "Bearish outlook for " ++ cid ++ " based on RSI signal." := by
  unfold analyze_crypto_bull_bear
  simp only [hne, Bool.false_eq_true, if_false, hlast]
  rfl

/-- An `INSERT OR REPLACE` grows the table by exactly one row per insert when the
inserted keys are fresh and pairwise distinct. -/
theorem length_foldl_upsertSignalRow (df : List IndicatorRow) :
    ∀ tbl : List IndicatorRow,
      ((tbl ++ df).map (fun q => (q.crypto_id, q.timestamp))).Nodup →
      (df.foldl upsertSignalRow tbl).length = tbl.length + df.length := by
  induction df with
  | nil => intro tbl _; simp
  | cons r rs ih =>
      intro tbl hnd
      rw [List.foldl_cons]
      have hfilter : upsertSignalRow tbl r = tbl ++ [r] := by
        unfold upsertSignalRow
        congr 1
        apply List.filter_eq_self.mpr
        intro x hx
        have hmap : (tbl.map (fun q => (q.crypto_id, q.timestamp))
            ++ ((r :: rs).map (fun q => (q.crypto_id, q.timestamp)))).Nodup := by
          rwa [← List.map_append]
        have hdisj := (List.nodup_append.mp hmap).2.2
        have hxk : (x.crypto_id, x.timestamp) ∈ tbl.map (fun q => (q.crypto_id, q.timestamp)) :=
          List.mem_map_of_mem _ hx
        have hne2 : ¬(x.crypto_id = r.crypto_id ∧ x.timestamp = r.timestamp) := by
          rintro ⟨h1, h2⟩
          exact hdisj hxk (by simp [h1, h2])
        have hb : (x.crypto_id == r.crypto_id && x.timestamp == r.timestamp) = false := by
          by_contra hc
          have hc' : (x.crypto_id == r.crypto_id && x.timestamp == r.timestamp) = true := by
            simpa using hc
          exact hne2 (by simpa [Bool.and_eq_true, beq_iff_eq] using hc')
        rw [hb]
        rfl
      rw [hfilter]
      have hnd' : (((tbl ++ [r]) ++ rs).map (fun q => (q.crypto_id, q.timestamp))).Nodup := by
        rw [List.append_assoc, List.singleton_append]
        exact hnd
      rw [ih (tbl ++ [r]) hnd']
      simp only [List.length_append, List.length_cons, List.length_nil]
      omega

/-! ### The 20-day rising series of the claim ("BTC", $100 → $300) -/

def btcPrice (k : Nat) : ℚ := 100 + (200 / 19) * k

def btcPs : List ℚ := (List.range 20).map btcPrice

def btcTs (k : Nat) : String :=
  "2024-01-" ++ (if k + 1 < 10 then "0" ++ toString (k + 1) else toString (k + 1)) ++ " 00:00:00"

def btcRows : List MarketRow :=
  (List.range 20).map (fun k =>
    { crypto_id := "BTC", timestamp := btcTs k, vals := mdvOnly (btcPrice k) })

def btcCrypto : CryptoRow :=
  { id := "1", symbol := "BTC", name := "Bitcoin", slug := "bitcoin",
    first_historical_data := "2024-01-01 00:00:00",
    last_historical_data := "2024-01-20 00:00:00", status := "active" }

def btcState : DBState := insert_market_data (insert_cryptos emptyDB [btcCrypto]) btcRows

/-- Every step of the rising series is a gain: the loss column of the
trailing window is identically zero. -/
theorem btcPs_loss_zero : ∀ x ∈ (lossVals btcPs).drop (btcPs.length - 14), x = (0:ℚ) := by
  norm_num [btcPs, btcPrice, lossVals, diffs, List.range_succ]

/-- The trailing 14-step gain of the rising series is far above the epsilon
threshold. -/
theorem btcPs_gain_big : 98/3 * rsiEps < ((gainVals btcPs).drop (btcPs.length - 14)).sum := by
  norm_num [btcPs, btcPrice, gainVals, diffs, rsiEps, List.range_succ]

/-- C2 (amended): the universal statement holds for series whose *trailing*
14 steps are loss-free with total gain above `14 * (7/3) * 1e-9` (the
original "contains at least 14 consecutive strictly rising prices" is
refuted by a rise followed by a crash — see the counterexample); and the
claim's own example behaves as claimed: for the 20-observation series rising
from $100 to $300, the engine's last row has RSI above 70 and the bearish
label, and `analyze_crypto_bull_bear` persists one signal row per observation
row (20 rows), returns the bearish verdict naming the instrument, and in
particular neither raises (all embedded operations are total) nor returns
the "no data" verdict. -/
theorem rising_series_bearish_classification :
    (∀ ps : List ℚ, 14 ≤ ps.length →
      (∀ x ∈ (lossVals ps).drop (ps.length - 14), x = 0) →
      98/3 * rsiEps < ((gainVals ps).drop (ps.length - 14)).sum →
      ∃ r : ℚ, (rsiList ps).getLast? = some (some r) ∧ 70 < r ∧
        (signalList ps).getLast? = some "Bearish Signal")
    ∧ (∃ r : ℚ,
        ((calculate_technical_indicators btcState "BTC" none none).getLastD
          dummyIndicatorRow).RSI = some r ∧ 70 < r)
    ∧ ((calculate_technical_indicators btcState "BTC" none none).getLastD
          dummyIndicatorRow).signal = "Bearish Signal"
    ∧ (calculate_technical_indicators btcState "BTC" none none).length = 20
    ∧ ((analyze_crypto_bull_bear btcState "BTC" none none).1).signals.length = 20
    ∧ (analyze_crypto_bull_bear btcState "BTC" none none).2
        = "Bearish outlook for BTC based on RSI signal." := by
  have hgen : ∀ ps : List ℚ, 14 ≤ ps.length →
      (∀ x ∈ (lossVals ps).drop (ps.length - 14), x = 0) →
      98/3 * rsiEps < ((gainVals ps).drop (ps.length - 14)).sum →
      ∃ r : ℚ, (rsiList ps).getLast? = some (some r) ∧ 70 < r ∧
        (signalList ps).getLast? = some "Bearish Signal" :=
    fun ps h14 hl hg => trailing_gains_bearish ps h14 hl hg
  obtain ⟨r, hr, h70, hsig⟩ := hgen btcPs (by decide) btcPs_loss_zero btcPs_gain_big
  have hlen20 : (sortByTs (get_market_data btcState "BTC" none none)).length = 20 := rfl
  have hps : (sortByTs (get_market_data btcState "BTC" none none)).map
      (fun q => q.vals.price_usd) = btcPs := rfl
  have hgetLast := indicatorRows_getLastD (sortByTs (get_market_data btcState "BTC" none none))
    (by rw [hlen20]; omega)
  rw [hps, hlen20] at hgetLast
  have hL : (calculate_technical_indicators btcState "BTC" none none).getLastD
      dummyIndicatorRow
      = { crypto_id := ((sortByTs (get_market_data btcState "BTC" none none)).map
            (fun q => q.crypto_id)).getD (20 - 1) "",
          timestamp := ((sortByTs (get_market_data btcState "BTC" none none)).map
            (fun q => q.timestamp)).getD (20 - 1) "",
          daily_return := (dailyReturns btcPs).getD (20 - 1) none,
          ma_7d := (rollingMean 7 btcPs).getD (20 - 1) none,
          std_7d_sq := (rollingStdSq 7 btcPs).getD (20 - 1) none,
          RSI := (rsiList btcPs).getD (20 - 1) none,
          signal := (signalList btcPs).getD (20 - 1) "" } := hgetLast
  have hrD : (rsiList btcPs).getD (20 - 1) none = some r := by
    have h := getD_last_of_getLast? (rsiList btcPs) none _ hr
    exact h
  have hsigD : (signalList btcPs).getD (20 - 1) "" = "Bearish Signal" := by
    have h := getD_last_of_getLast? (signalList btcPs) "" _ hsig
    exact h
  have hlastsig : ((calculate_technical_indicators btcState "BTC" none none).getLastD
      dummyIndicatorRow).signal = "Bearish Signal" := by
    rw [hL]
    exact hsigD
  refine ⟨hgen, ⟨r, ?_, h70⟩, hlastsig, rfl, ?_, ?_⟩
  · rw [hL]
    exact hrD
  · rw [analyze_state_eq]
    unfold save_indicators_to_db
    rw [show (calculate_technical_indicators btcState "BTC" none none).isEmpty = false from rfl]
    simp only [Bool.false_eq_true, if_false]
    show ((calculate_technical_indicators btcState "BTC" none none).foldl upsertSignalRow
      btcState.signals).length = 20
    rw [show btcState.signals = ([] : List IndicatorRow) from rfl]
    rw [length_foldl_upsertSignalRow _ [] (by rw [List.nil_append]; decide)]
    rfl
  · have hverdict := analyze_verdict_bearish btcState "BTC" none none rfl hlastsig
    rw [hverdict]
    rfl

/-- Witness for the universal part of the amended C2, at the 20-day rising
series itself. -/
theorem rising_series_bearish_classification_witness :
    (14 ≤ btcPs.length ∧ (∀ x ∈ (lossVals btcPs).drop (btcPs.length - 14), x = 0) ∧
      98/3 * rsiEps < ((gainVals btcPs).drop (btcPs.length - 14)).sum)
    ∧ ∃ r : ℚ, (rsiList btcPs).getLast? = some (some r) ∧ 70 < r ∧
        (signalList btcPs).getLast? = some "Bearish Signal" :=
  ⟨⟨by decide, btcPs_loss_zero, btcPs_gain_big⟩,
    rising_series_bearish_classification.1 btcPs (by decide) btcPs_loss_zero btcPs_gain_big⟩

/-! ### C2 counterexample: a rising run that does not end the series -/

/-- Fourteen strictly rising prices ($100, $110, ..., $230) followed by a crash
to $1. -/
def cexPrice (k : Nat) : ℚ := if k < 14 then 100 + 10 * k else 1

def cexPs : List ℚ := (List.range 15).map cexPrice

def cexRows : List MarketRow :=
  (List.range 15).map (fun k =>
    { crypto_id := "BTC", timestamp := btcTs k, vals := mdvOnly (cexPrice k) })

def cexState : DBState := insert_market_data (insert_cryptos emptyDB [btcCrypto]) cexRows

/-- The classifier's verdict when the last indicator row is neutral. -/
theorem analyze_verdict_neutral (s : DBState) (cid : String) (sd ed : Option String)
    (hne : (calculate_technical_indicators s cid sd ed).isEmpty = false)
    (hlast : ((calculate_technical_indicators s cid sd ed).getLastD dummyIndicatorRow).signal
      = "Neutral/No signal") :
    (analyze_crypto_bull_bear s cid sd ed).2
      = "Neutral signals for " ++ cid ++ " at the moment." := by
  unfold analyze_crypto_bull_bear
  simp only [hne, Bool.false_eq_true, if_false, hlast]
  rfl

/-- C2 counterexample: the observation series of "BTC" in `cexState` contains
14 consecutive strictly rising prices (its first 14 entries), yet the
engine's last row is labelled neutral, not bearish (its trailing 14-step
window contains the crash: RSI ≈ 36), and the classifier returns the neutral
verdict, not the bearish one.  So "contains at least 14 consecutive strictly
rising prices" does not imply a bearish last row. -/
theorem rising_run_not_sufficient_counterexample :
    ((sortByTs (get_market_data cexState "BTC" none none)).map
        (fun q => q.vals.price_usd) = cexPs
      ∧ List.Chain' (· < ·) (cexPs.take 14))
    ∧ ((calculate_technical_indicators cexState "BTC" none none).getLastD
        dummyIndicatorRow).signal = "Neutral/No signal"
    ∧ ((calculate_technical_indicators cexState "BTC" none none).getLastD
        dummyIndicatorRow).signal ≠ "Bearish Signal"
    ∧ (analyze_crypto_bull_bear cexState "BTC" none none).2
        = "Neutral signals for BTC at the moment."
    ∧ (analyze_crypto_bull_bear cexState "BTC" none none).2
        ≠ "Bearish outlook for BTC based on RSI signal." := by
  have hchain : List.Chain' (· < ·) (cexPs.take 14) := by
    norm_num [cexPs, cexPrice, List.range_succ, List.chain'_cons]
  have hG : ((gainVals cexPs).drop (cexPs.length - 14)).sum = 130 := by
    norm_num [cexPs, cexPrice, gainVals, diffs, List.range_succ]
  have hLo : ((lossVals cexPs).drop (cexPs.length - 14)).sum = 229 := by
    norm_num [cexPs, cexPrice, lossVals, diffs, List.range_succ]
  have hsigLast : (signalList cexPs).getLast? = some "Neutral/No signal" := by
    rw [signalList_getLast cexPs (by decide), hG, hLo]
    norm_num [signalOf, rsiOf, rsiEps]
  have hlen15 : (sortByTs (get_market_data cexState "BTC" none none)).length = 15 := rfl
  have hps : (sortByTs (get_market_data cexState "BTC" none none)).map
      (fun q => q.vals.price_usd) = cexPs := rfl
  have hgetLast := indicatorRows_getLastD (sortByTs (get_market_data cexState "BTC" none none))
    (by rw [hlen15]; omega)
  rw [hps, hlen15] at hgetLast
  have hlastsig : ((calculate_technical_indicators cexState "BTC" none none).getLastD
      dummyIndicatorRow).signal = "Neutral/No signal" := by
    have hL : (calculate_technical_indicators cexState "BTC" none none).getLastD
        dummyIndicatorRow
        = { crypto_id := ((sortByTs (get_market_data cexState "BTC" none none)).map
              (fun q => q.crypto_id)).getD (15 - 1) "",
            timestamp := ((sortByTs (get_market_data cexState "BTC" none none)).map
              (fun q => q.timestamp)).getD (15 - 1) "",
            daily_return := (dailyReturns cexPs).getD (15 - 1) none,
            ma_7d := (rollingMean 7 cexPs).getD (15 - 1) none,
            std_7d_sq := (rollingStdSq 7 cexPs).getD (15 - 1) none,
            RSI := (rsiList cexPs).getD (15 - 1) none,
            signal := (signalList cexPs).getD (15 - 1) "" } := hgetLast
    rw [hL]
    exact getD_last_of_getLast? (signalList cexPs) "" _ hsigLast
  refine ⟨⟨hps, hchain⟩, hlastsig, ?_, ?_, ?_⟩
  · rw [hlastsig]
    decide
  · exact analyze_verdict_neutral cexState "BTC" none none rfl hlastsig
  · rw [analyze_verdict_neutral cexState "BTC" none none rfl hlastsig]
    decide
